import Mathlib

/-!
Verification development for `src/tools/agents/market_research_scout.py`.

Shallow embedding conventions:
* Timestamps (`datetime` values) are modelled as `Int` epoch seconds (UTC);
  a timedelta of n days becomes `n * 86400` seconds.  The Python code
  compares `datetime`/`timedelta` values at (micro)second granularity; all
  boundary claims in the spec are stated at second granularity, so `Int`
  seconds are a faithful carrier.
* Python `str` is Lean `String`; substring membership (`term in text`) is
  `strContains`, defined below over the character lists.
* `dict` objects with a fixed schema (tasks, the board, action plans,
  history records) are Lean structures; insertion-ordered dicts that are
  iterated (KEYWORD_WEIGHTS, category_scores) are association lists kept in
  the source's declaration order.
* The filesystem touched by `main` is a record of typed slots
  (board JSON, board Markdown, daily report, per-ticket files).  The board
  JSON slot stores the parse result of the file: `none` = file absent,
  `some none` = file present but unparseable, `some (some b)` = parseable
  board `b`.  `json.dumps` is deterministic and injective on the board
  schema, so byte-for-byte comparison of serialized boards is modelled as
  decidable equality of `Board` values.
* External library calls with no design content for the claims
  (`hashlib.sha1` in `stable_id`, `strftime`/`date().isoformat()` of the
  frozen run clock, the path arguments) are environment parameters of the
  reconcile function; they are constants for a fixed clock and
  configuration, which is all the claims need.
-/

namespace MRS

/-- Python `str.lower()` (ASCII case folding, per-character). -/
def strLower (s : String) : String := ⟨s.data.map Char.toLower⟩

/-- Lexicographic comparison of character lists by code point —
Python's `<=` on strings (and Lean's `String.le`, stated computably). -/
def charsLE : List Char → List Char → Bool
  | [], _ => true
  | _ :: _, [] => false
  | a :: as, b :: bs => if a < b then true else if b < a then false else charsLE as bs

/-- Python string `<=`. -/
def strLE (a b : String) : Bool := charsLE a.data b.data

/-- `term in text` for Python strings, on character lists. -/
def charsContain (needle : List Char) : List Char → Bool
  | [] => needle.isEmpty
  | c :: cs => needle.isPrefixOf (c :: cs) || charsContain needle cs

/-- Python substring membership `needle in haystack`. -/
def strContains (haystack needle : String) : Bool :=
  charsContain needle.toList haystack.toList

/-- KEYWORD_WEIGHTS from the source, in declaration (= dict iteration) order. -/
def KEYWORD_WEIGHTS : List (String × (List String × Nat)) :=
  [ ("pricing", (["pricing", "price", "billing", "subscription", "usage-based", "seat"], 4)),
    ("ai_automation", (["ai", "agent", "automation", "copilot", "llm", "assistant"], 4)),
    ("developer_workflow", (["release", "changelog", "github", "workflow", "developer", "devops"], 3)),
    ("compliance", (["security", "compliance", "soc2", "audit", "gdpr", "hipaa"], 3)),
    ("go_to_market", (["growth", "distribution", "marketplace", "partnership", "channel"], 2)) ]

/-- The three-field action-plan template (values of PLAYBOOK_BY_CATEGORY). -/
structure ActionPlan where
  opportunity : String
  plan : String
  experiment : String
deriving DecidableEq, Repr

/-- PLAYBOOK_BY_CATEGORY from the source (the `general` entry is the
fallback used by `build_action_plan`). -/
def PLAYBOOK_BY_CATEGORY : List (String × ActionPlan) :=
  [ ("pricing",
      { opportunity := "Pricing and packaging differentiation",
        plan := "Evaluate a usage-metered or annual-commit package variant for ReleaseMind PaaS.",
        experiment := "Run a pricing-page A/B copy test with value metric framing and monitor conversion intent." }),
    ("ai_automation",
      { opportunity := "AI-first release operations lane",
        plan := "Package AI-assisted release generation and post-publish QA checks as a premium workflow.",
        experiment := "Build one AI workflow add-on and test adoption with existing active users." }),
    ("developer_workflow",
      { opportunity := "Developer workflow integration expansion",
        plan := "Prioritize tighter GitHub/CI integration with faster release-note draft loops.",
        experiment := "Ship one integration enhancement and track week-over-week usage lift." }),
    ("compliance",
      { opportunity := "Compliance-ready release communications",
        plan := "Productize audit-grade release evidence and governance controls for enterprise buyers.",
        experiment := "Prototype a compliance export view and collect design-partner feedback." }),
    ("go_to_market",
      { opportunity := "Channel and distribution growth",
        plan := "Expand marketplace/distribution footprints and partner-aligned onboarding assets.",
        experiment := "Launch one distribution channel experiment and measure qualified signup rate." }),
    ("general",
      { opportunity := "Emerging market signal",
        plan := "Capture this signal in backlog and validate impact against current roadmap themes.",
        experiment := "Interview 3 target users to validate urgency and willingness to pay." }) ]

/-- The `general` playbook entry, fallback of `PLAYBOOK_BY_CATEGORY.get(...)`. -/
def generalPlaybook : ActionPlan :=
  { opportunity := "Emerging market signal",
    plan := "Capture this signal in backlog and validate impact against current roadmap themes.",
    experiment := "Interview 3 target users to validate urgency and willingness to pay." }

/-- Association-list lookup (Python `dict.get` on a schema-fixed dict). -/
def lookupAssoc {β : Type} : List (String × β) → String → Option β
  | [], _ => none
  | (k, v) :: rest, key => if k = key then some v else lookupAssoc rest key

/-- FeedItem dataclass; `published_at` is epoch seconds (UTC), `none` when
the feed item carried no parseable date. -/
structure FeedItem where
  title : String
  link : String
  published_at : Option Int
  source_feed : String
deriving DecidableEq, Repr

/-- Opportunity dataclass. -/
structure Opportunity where
  item : FeedItem
  score : Nat
  category : String
  matched_terms : List String
deriving DecidableEq, Repr

/-- Per-category accumulated keyword scores of `score_item`'s loop:
the entries of `category_scores` (categories with positive score only),
in KEYWORD_WEIGHTS iteration order. -/
def categoryScores (item : FeedItem) : List (String × Nat) :=
  let text := strLower (item.title ++ " " ++ item.link)
  KEYWORD_WEIGHTS.filterMap fun (category, terms, weight) =>
    let catScore := (terms.filter fun term => strContains text term).length * weight
    if catScore > 0 then some (category, catScore) else none

/-- All matched terms collected by `score_item`'s loop, in iteration order
(before the final `sorted(set(...))`). -/
def matchedTermsRaw (item : FeedItem) : List String :=
  let text := strLower (item.title ++ " " ++ item.link)
  KEYWORD_WEIGHTS.flatMap fun (_, terms, _) =>
    terms.filter fun term => strContains text term

/-- Sum of the per-category contributions (the keyword part of `total`). -/
def keywordTotal (item : FeedItem) : Nat :=
  ((categoryScores item).map (·.2)).sum

/-- Recency bonus of `score_item`: +3 when `now - published_at ≤ 7 days`,
+1 when `≤ 30 days`, else 0; 0 when the date is absent. -/
def recencyBonus (now : Int) (published_at : Option Int) : Nat :=
  match published_at with
  | none => 0
  | some p =>
    if now - p ≤ 7 * 86400 then 3
    else if now - p ≤ 30 * 86400 then 1
    else 0

/-- The `total` variable of `score_item` just before the threshold test. -/
def totalScore (now : Int) (item : FeedItem) : Nat :=
  keywordTotal item + recencyBonus now item.published_at

/-- Python `max(pairs, key=lambda x: x[1])` on a nonempty association list:
keeps the current maximum, replacing it only on a strictly greater score,
so the first entry attaining the maximum wins. -/
def pythonMaxSnd (x : String × Nat) (xs : List (String × Nat)) : String × Nat :=
  xs.foldl (fun acc y => if acc.2 < y.2 then y else acc) x

/-- The category chosen by `score_item`
(`max(category_scores.items(), key=...)[0] if category_scores else "general"`). -/
def chosenCategory (item : FeedItem) : String :=
  match categoryScores item with
  | [] => "general"
  | x :: xs => (pythonMaxSnd x xs).1

/-- `sorted(set(matched_terms))`: deduplicate, then sort lexicographically.
(`insertionSort` is a stable sort; stable sorting by a total preorder is
extensionally unique, so it models Python's sort exactly.) -/
def sortedDedup (l : List String) : List String :=
  List.insertionSort (fun a b => strLE a b = true) l.dedup

/-- `score_item` from the source: `none` when `total < 4`. -/
def score_item (now : Int) (item : FeedItem) : Option Opportunity :=
  let total := totalScore now item
  if total < 4 then none
  else some
    { item := item,
      score := total,
      category := chosenCategory item,
      matched_terms := sortedDedup (matchedTermsRaw item) }

/-! ### Ranking (main, lines 359-365) -/

/-- `int(op.item.published_at.timestamp()) if op.item.published_at else 0`. -/
def epochOr0 (op : Opportunity) : Int := op.item.published_at.getD 0

/-- The sort key `(-op.score, -epoch_or_0)`. -/
def rankKey (op : Opportunity) : Int × Int :=
  (-(op.score : Int), -(epochOr0 op))

/-- Lexicographic `≤` on the rank keys (Python tuple comparison). -/
def rankLE (a b : Opportunity) : Prop :=
  (rankKey a).1 < (rankKey b).1 ∨
    ((rankKey a).1 = (rankKey b).1 ∧ (rankKey a).2 ≤ (rankKey b).2)

instance : DecidableRel rankLE := fun a b => by unfold rankLE; exact inferInstance

/-- `opportunities.sort(key=...)`: Python's sort is stable; a stable sort by
a total preorder is extensionally unique, so the stable `insertionSort`
models it exactly. -/
def rankSort (l : List Opportunity) : List Opportunity :=
  List.insertionSort rankLE l

/-! ### Persisted data model -/

/-- The `source` sub-dict of a task. -/
structure Source where
  link : String
  feed : String
  published_at : Option Int
deriving DecidableEq, Repr

/-- A persisted task (board JSON `tasks` entry). -/
structure Task where
  id : String
  title : String
  status : String
  priority : String
  workstream : String
  owner : String
  score : Nat
  matched_terms : List String
  action_plan : ActionPlan
  source : Option Source
  ticket_path : Option String
  created_at : Int
  updated_at : Int
  tags : List String
deriving DecidableEq, Repr

/-- A board column `{id, name}`. -/
structure Column where
  id : String
  name : String
deriving DecidableEq, Repr

/-- A history record `{ran_at, signals_scanned, top_opportunities, new_tasks}`. -/
structure HistoryRec where
  ran_at : Int
  signals_scanned : Nat
  top_opportunities : Nat
  new_tasks : Nat
deriving DecidableEq, Repr

/-- The persisted board. -/
structure Board where
  version : Nat
  updated_at : Int
  columns : List Column
  tasks : List Task
  history : List HistoryRec
deriving DecidableEq, Repr

/-- The `default_board` literal from `main` (timestamps as epoch seconds). -/
def defaultBoard (now : Int) : Board :=
  { version := 1,
    updated_at := now,
    columns :=
      [ ⟨"market-intel", "Market Intel"⟩, ⟨"paas-backlog", "PaaS Backlog"⟩,
        ⟨"paas-build", "PaaS Build"⟩, ⟨"validate", "Validate"⟩, ⟨"done", "Done"⟩ ],
    tasks := [],
    history := [] }

/-- `load_json_or_default`: the board-file argument is `none` when the path
does not exist, `some none` when the file exists but `json.loads` raises,
and `some (some b)` when it parses to board `b`. -/
def load_json_or_default (file : Option (Option Board)) (default : Board) : Board :=
  match file with
  | none => default
  | some none => default
  | some (some b) => b

/-- `write_if_changed`, on a file slot holding `Option α` (absent / content):
returns the new slot content and whether a write happened. -/
def write_if_changed {α : Type} [DecidableEq α] (existing : Option α) (content : α) :
    Option α × Bool :=
  if existing = some content then (existing, false) else (some content, true)

/-! ### slugify (source lines 218-220) -/

/-- Characters kept by the slug regex class `[a-z0-9]`. -/
def isSlugChar (c : Char) : Bool :=
  (decide ('a' ≤ c) && decide (c ≤ 'z')) || (decide ('0' ≤ c) && decide (c ≤ '9'))

/-- `re.sub(r"[^a-z0-9]+", "-", s)` worker: each maximal run of non-slug
characters becomes a single hyphen (`afterDash` records whether the
previous character was part of such a run). -/
def collapseAux : Bool → List Char → List Char
  | _, [] => []
  | afterDash, c :: cs =>
    if isSlugChar c then c :: collapseAux false cs
    else if afterDash then collapseAux true cs
    else '-' :: collapseAux true cs

/-- `re.sub(r"[^a-z0-9]+", "-", s)`. -/
def collapseRuns (l : List Char) : List Char := collapseAux false l

/-- Python `.strip("-")`. -/
def stripDashes (l : List Char) : List Char :=
  ((l.dropWhile (· == '-')).reverse.dropWhile (· == '-')).reverse

/-- `slugify` from the source. -/
def slugify (value : String) : String :=
  let slug : String := ⟨(stripDashes (collapseRuns (strLower value).data)).take 72⟩
  if slug = "" then "market-opportunity" else slug

/-! ### Derived task content -/

/-- `build_action_plan`: playbook lookup with `general` fallback (the copy
into a fresh dict reproduces the three template fields unchanged). -/
def build_action_plan (op : Opportunity) : ActionPlan :=
  (lookupAssoc PLAYBOOK_BY_CATEGORY op.category).getD generalPlaybook

/-- Map joining: `"\n".join(lines)`. -/
def joinNL (lines : List String) : String := String.intercalate "\n" lines

/-- Python `str.rstrip()` (trailing whitespace removal). -/
def rstrip (s : String) : String :=
  ⟨(s.data.reverse.dropWhile Char.isWhitespace).reverse⟩

/-- `create_ticket_content` (timestamps rendered as decimal epoch seconds,
the shallow counterpart of `isoformat`). -/
def create_ticket_content (op : Opportunity) (task : Task) : String :=
  let published := match op.item.published_at with
    | some p => toString p
    | none => "unknown"
  let title := op.item.title
  let link := op.item.link
  let feed := op.item.source_feed
  let score := op.score
  let category := op.category
  let workstream := task.workstream
  let plan := task.action_plan
  let planOpportunity := plan.opportunity
  let planPlan := plan.plan
  let planExperiment := plan.experiment
  joinNL
    [ s!"# Market Opportunity: {title}",
      "",
      s!"- Source: {link}",
      s!"- Feed: {feed}",
      s!"- Published: {published}",
      s!"- Score: {score}",
      s!"- Category: `{category}`",
      s!"- Workstream: `{workstream}`",
      "",
      "## Why this matters",
      s!"{planOpportunity}.",
      "",
      "## Action plan",
      planPlan,
      "",
      "## 7-day experiment",
      planExperiment,
      "",
      "## Task checklist",
      "- [ ] Validate urgency with at least 3 target users",
      "- [ ] Define success metric and baseline",
      "- [ ] Prototype scope and estimate implementation effort",
      "- [ ] Decide go/no-go for PaaS backlog",
      "" ]

/-! ### Board Markdown rendering (source lines 241-278) -/

/-- Python string `<` (strict lexicographic order). -/
def strLT (a b : String) : Bool := strLE a b && !(a == b)

/-- The column sort key `(t.get("priority", "P3"), t.get("created_at", ""))`
compared as Python tuples (`created_at` ISO strings compare identically to
their epoch values for UTC timestamps). -/
def colTaskLE (t u : Task) : Prop :=
  strLT t.priority u.priority = true ∨
    (t.priority = u.priority ∧ t.created_at ≤ u.created_at)

instance : DecidableRel colTaskLE := fun t u => by unfold colTaskLE; exact inferInstance

/-- The lines appended for one task in `render_board_markdown`. -/
def renderTaskLines (t : Task) : List String :=
  let title := t.title
  let prio := t.priority
  let ticket := t.ticket_path.getD ""
  let owner := t.owner
  let workstream := t.workstream
  let planText := t.action_plan.plan
  [s!"- **[{prio}] {title}**", s!"  - Owner: `{owner}`", s!"  - Workstream: `{workstream}`"]
    ++ (if ticket ≠ "" then [s!"  - Ticket: `{ticket}`"] else [])
    ++ (if planText ≠ "" then [s!"  - Plan: {planText}"] else [])

/-- The lines of one column section. -/
def renderColumn (tasks : List Task) (col : Column) : List String :=
  let cname := col.name
  let colTasks := tasks.filter fun t => t.status == col.id
  s!"## {cname}" ::
    (if colTasks.isEmpty then ["- _(none)_", ""]
     else (List.insertionSort colTaskLE colTasks).flatMap renderTaskLines ++ [""])

/-- `render_board_markdown` body, as a function of the three board fields
it reads (`updated_at`, `columns`, `tasks`). -/
def renderParts (updated_at : Int) (columns : List Column) (tasks : List Task) : String :=
  let updated := toString updated_at
  rstrip (joinNL
    (["# Shared Market Taskboard", "", s!"Updated: {updated}", ""]
      ++ columns.flatMap (renderColumn tasks))) ++ "\n"

/-- `render_board_markdown`. -/
def render_board_markdown (board : Board) : String :=
  renderParts board.updated_at board.columns board.tasks

/-! ### Reconcile (main, lines 313-510) -/

/-- Run-constant external inputs of `main` that carry no design content:
the sha1-based `stable_id` digest, the two clock-derived date strings, and
the relative directories from the CLI arguments. -/
structure Env where
  stableId : String → String
  dateIso : String
  dateCompact : String
  ticketsDirRel : String
  reportDirRel : String

/-- The two integer caps (`--max-opportunities`, `--max-new-tickets`). -/
structure Cfg where
  maxOpportunities : Int
  maxNewTickets : Int
deriving DecidableEq, Repr

/-- The filesystem slots `main` writes through `write_if_changed`.
`boardJson` stores the parse result of the board file (see
`load_json_or_default`); `tickets` maps ticket paths to contents. -/
structure FS where
  boardJson : Option (Option Board)
  boardMd : Option String
  report : Option String
  tickets : List (String × String)
deriving DecidableEq, Repr

/-- The mutable state of the merge loop over `top`. -/
structure MergeState where
  tasks : List Task
  created : Nat
  createdPaths : List String
  tickets : List (String × String)
deriving DecidableEq, Repr

/-- The run summary (the fields of the `summary` dict that are data, with
the changed flags the claims are about). -/
structure Summary where
  status : String
  signals_scanned : Nat
  scored_opportunities : Nat
  top_opportunities : Nat
  new_tasks : Nat
  board_json_changed : Bool
  board_md_changed : Bool
  report_changed : Bool
  report_path : String
  created_ticket_paths : List String
  feed_errors : List String
deriving DecidableEq, Repr

/-- The key a task contributes to `existing_by_source`
(`task.get("source", {}).get("link", "")`, tasks without `source` skipped). -/
def taskKey (t : Task) : Option String :=
  t.source.map (·.link)

/-- `key in existing_by_source` recomputed from the current task list. -/
def hasLink (ts : List Task) (k : String) : Bool :=
  ts.any fun t => taskKey t == some k

/-- The in-place refresh of an existing task (main, lines 394-398):
exactly `updated_at`, `score`, `matched_terms`, `action_plan`. -/
def refreshTask (now : Int) (op : Opportunity) (t : Task) : Task :=
  { t with
    updated_at := now,
    score := op.score,
    matched_terms := op.matched_terms,
    action_plan := build_action_plan op }

/-- Refresh the task `existing_by_source[k]` points at: with duplicate
keys the dict comprehension keeps the last task, so the last task whose
key is `k` is updated. -/
def refreshLast (now : Int) (op : Opportunity) (k : String) : List Task → List Task
  | [] => []
  | t :: rest =>
    if hasLink rest k then t :: refreshLast now op k rest
    else if taskKey t == some k then refreshTask now op t :: rest
    else t :: rest

/-- The task literal created for a previously unseen opportunity. -/
def newTask (env : Env) (now : Int) (op : Opportunity) (relPath : String) : Task :=
  { id := env.stableId op.item.link,
    title := op.item.title,
    status := "paas-backlog",
    priority := if op.score ≥ 10 then "P1" else "P2",
    workstream := "paas",
    owner := "market-research-agent",
    score := op.score,
    matched_terms := op.matched_terms,
    action_plan := build_action_plan op,
    source := some ⟨op.item.link, op.item.source_feed, op.item.published_at⟩,
    ticket_path := some relPath,
    created_at := now,
    updated_at := now,
    tags := ["market-research", "opportunity", "paas"] }

/-- Assoc-map update for a ticket path. -/
def setAssoc : List (String × String) → String → String → List (String × String)
  | [], p, c => [(p, c)]
  | (q, d) :: rest, p, c =>
    if q = p then (q, c) :: rest else (q, d) :: setAssoc rest p c

/-- `write_if_changed(ticket_path, content)` on the ticket map: the map is
untouched when the existing content is byte-identical. -/
def ticketWrite (m : List (String × String)) (p c : String) : List (String × String) :=
  match lookupAssoc m p with
  | some d => if d = c then m else setAssoc m p c
  | none => setAssoc m p c

/-- The relative ticket path `tickets_dir / f"{date}-{slug}.md"`. -/
def ticketRelPath (env : Env) (op : Opportunity) : String :=
  env.ticketsDirRel ++ "/" ++ env.dateCompact ++ "-" ++ slugify op.item.title ++ ".md"

/-- One iteration of the `for op in top` merge loop (main, lines 390-435). -/
def mergeStep (env : Env) (cfg : Cfg) (now : Int) (st : MergeState) (op : Opportunity) :
    MergeState :=
  let key := op.item.link
  if hasLink st.tasks key then
    { st with tasks := refreshLast now op key st.tasks }
  else if st.created ≥ (max 0 cfg.maxNewTickets).toNat then st
  else
    let relPath := ticketRelPath env op
    let task := newTask env now op relPath
    { tasks := st.tasks ++ [task],
      created := st.created + 1,
      createdPaths := st.createdPaths ++ [relPath],
      tickets := ticketWrite st.tickets relPath (create_ticket_content op task) }

/-- The link-dedup pass over fetched items (main, lines 345-351):
first occurrence wins. -/
def dedupAux (seen : List String) : List FeedItem → List FeedItem
  | [] => []
  | i :: rest =>
    if seen.contains i.link then dedupAux seen rest
    else i :: dedupAux (i.link :: seen) rest

/-- `deduped` from `fetched_items`. -/
def dedupByLink (l : List FeedItem) : List FeedItem := dedupAux [] l

/-- `opportunities`: deduplicate, then score, keeping retained items. -/
def opportunitiesOf (now : Int) (fetched : List FeedItem) : List Opportunity :=
  (dedupByLink fetched).filterMap (score_item now)

/-- `top = opportunities[: max(0, args.max_opportunities)]` after ranking. -/
def topOf (cfg : Cfg) (now : Int) (fetched : List FeedItem) : List Opportunity :=
  (rankSort (opportunitiesOf now fetched)).take (max 0 cfg.maxOpportunities).toNat

/-- `board["history"][-50:]`. -/
def lastN {α : Type} (n : Nat) (l : List α) : List α := l.drop (l.length - n)

/-- The lines of one opportunity section of the daily report. -/
def reportOpLines (op : Opportunity) : List String :=
  let plan := build_action_plan op
  let title := op.item.title
  let link := op.item.link
  let score := op.score
  let category := op.category
  let matched := if op.matched_terms.isEmpty then "none"
    else String.intercalate ", " op.matched_terms
  let planPlan := plan.plan
  let planExperiment := plan.experiment
  [ s!"### {title}", s!"- Link: {link}", s!"- Score: {score}", s!"- Category: `{category}`",
    s!"- Matched terms: {matched}", s!"- Action: {planPlan}",
    s!"- 7-day experiment: {planExperiment}", "" ]

/-- The daily report content (main, lines 455-492). -/
def renderReport (env : Env) (signals scored : Nat) (top : List Opportunity)
    (createdTasks : Nat) (feedErrors : List String) : String :=
  let date := env.dateIso
  let topCount := top.length
  let lines :=
    [ s!"# Market Opportunities Scan ({date})", "",
      s!"- Signals scanned: {signals}", s!"- Scored opportunities: {scored}",
      s!"- Top opportunities considered: {topCount}",
      s!"- New tasks created: {createdTasks}", "", "## Top opportunities" ]
    ++ (if top.isEmpty then ["- No high-signal opportunities found in this run."]
        else top.flatMap reportOpLines)
    ++ (if feedErrors.isEmpty then []
        else "## Feed errors" :: feedErrors.map (fun e => s!"- {e}") ++ [""])
  rstrip (joinNL lines) ++ "\n"

/-- The board `main` works on: `load_json_or_default(board_json_path, default_board)`. -/
def loadedBoard (now : Int) (fs : FS) : Board :=
  load_json_or_default fs.boardJson (defaultBoard now)

/-- The merge-loop state after the `for op in top` loop. -/
def mergeResult (env : Env) (cfg : Cfg) (now : Int) (fetched : List FeedItem) (fs : FS) :
    MergeState :=
  (topOf cfg now fetched).foldl (mergeStep env cfg now)
    ⟨(loadedBoard now fs).tasks, 0, [], fs.tickets⟩

/-- The board value serialized to board JSON at the end of the run
(tasks from the merge, fresh `updated_at`, history appended and truncated
to the last 50 records). -/
def finalBoard (env : Env) (cfg : Cfg) (now : Int) (fetched : List FeedItem) (fs : FS) :
    Board :=
  let board0 := loadedBoard now fs
  let stF := mergeResult env cfg now fetched fs
  { board0 with
    tasks := stF.tasks,
    updated_at := now,
    history := lastN 50 (board0.history ++
      [⟨now, (dedupByLink fetched).length, (topOf cfg now fetched).length, stF.created⟩]) }

/-- The board Markdown content written at the end of the run. -/
def finalMd (env : Env) (cfg : Cfg) (now : Int) (fetched : List FeedItem) (fs : FS) :
    String :=
  render_board_markdown (finalBoard env cfg now fetched fs)

/-- The daily report content written at the end of the run. -/
def finalReport (env : Env) (cfg : Cfg) (now : Int) (fetched : List FeedItem)
    (feedErrors : List String) (fs : FS) : String :=
  renderReport env (dedupByLink fetched).length (opportunitiesOf now fetched).length
    (topOf cfg now fetched) (mergeResult env cfg now fetched fs).created feedErrors

/-- Everything `main` does after fetching: dedup, score, rank, truncate,
load the board, merge, append history, and write the four artifact kinds
through `write_if_changed`.  Returns the filesystem afterwards and the run
summary. -/
def runReconcile (env : Env) (cfg : Cfg) (now : Int) (fetched : List FeedItem)
    (feedErrors : List String) (fs : FS) : FS × Summary :=
  let deduped := dedupByLink fetched
  let opportunities := deduped.filterMap (score_item now)
  let top := topOf cfg now fetched
  let stF := mergeResult env cfg now fetched fs
  let board1 := finalBoard env cfg now fetched fs
  let bj := write_if_changed fs.boardJson (some board1)
  let md := write_if_changed fs.boardMd (finalMd env cfg now fetched fs)
  let rep := write_if_changed fs.report (finalReport env cfg now fetched feedErrors fs)
  (⟨bj.1, md.1, rep.1, stF.tickets⟩,
   { status := "ok",
     signals_scanned := deduped.length,
     scored_opportunities := opportunities.length,
     top_opportunities := top.length,
     new_tasks := stF.created,
     board_json_changed := bj.2,
     board_md_changed := md.2,
     report_changed := rep.2,
     report_path := env.reportDirRel ++ "/" ++ env.dateIso ++ "-market-opportunities.md",
     created_ticket_paths := stF.createdPaths,
     feed_errors := feedErrors })

/-! ### Concrete fixtures used by witnesses and counterexamples -/

/-- A concrete environment: an injective stand-in for the sha1 digest and
fixed run-date strings/directories. -/
def exEnv : Env :=
  { stableId := fun s => "mr-" ++ s,
    dateIso := "2026-10-12",
    dateCompact := "20261012",
    ticketsDirRel := "docs/tickets",
    reportDirRel := "docs/reports" }

/-- The CLI default caps (`--max-opportunities 6 --max-new-tickets 3`). -/
def exCfg : Cfg := ⟨6, 3⟩

/-- An empty starting filesystem (first ever run). -/
def exFS : FS := ⟨none, none, none, []⟩

instance : IsTotal Opportunity rankLE :=
  ⟨fun a b => by unfold rankLE; omega⟩

instance : IsTrans Opportunity rankLE :=
  ⟨fun a b c hab hbc => by unfold rankLE at *; omega⟩

/-- A dated item whose publish date lies before the Unix epoch
(timestamp −1, i.e. 1969-12-31T23:59:59Z). -/
def exDated : FeedItem := ⟨"y", "pricing-a", some (-1), "f"⟩

/-- An undated item with the same keyword score as `exDated`. -/
def exUndated : FeedItem := ⟨"z", "pricing-b", none, "f"⟩

/-- Witness opportunity with a positive publish epoch. -/
def exOpDated : Opportunity := ⟨⟨"y", "pricing-a", some 5, "f"⟩, 4, "pricing", ["pricing"]⟩

/-- Witness opportunity with no publish date and the same score. -/
def exOpUndated : Opportunity := ⟨⟨"z", "pricing-b", none, "f"⟩, 4, "pricing", ["pricing"]⟩

/-- An item matching both a weight-4 `pricing` term and a weight-4
`ai_automation` term: the two categories tie at 4. -/
def exTieItem : FeedItem := ⟨"pricing ai", "https://x.io/t", none, "f"⟩

/-- The opportunity `score_item` produces for `exTieItem`: the tie is
broken in favor of `pricing`, the earlier KEYWORD_WEIGHTS entry. -/
def exTieOp : Opportunity := ⟨exTieItem, 8, "pricing", ["ai", "pricing"]⟩

/-- A task list on which refreshing with `op` is a no-op: either no task
carries `op`'s link, or the targeted task already holds exactly the
refreshed field values. -/
def FixedFor (now : Int) (ts : List Task) (op : Opportunity) : Prop :=
  refreshLast now op op.item.link ts = ts

/-- An item whose link matches the weight-4 keyword "pricing". -/
def exItemP : FeedItem := ⟨"x", "pricing", none, "f"⟩

/-- Previously unseen opportunity number one (title slugs to "a"). -/
def exItemA : FeedItem := ⟨"A", "pricing-a", none, "f"⟩

/-- Previously unseen opportunity number two (title slugs to "b"). -/
def exItemB : FeedItem := ⟨"B", "pricing-b", none, "f"⟩

/-- A configuration with `--max-new-tickets 1`. -/
def exCfg1 : Cfg := ⟨6, 1⟩

/-- Everything the merge refresh does *not* touch: all task fields except
`score`, `matched_terms`, `action_plan`, `updated_at`. -/
def SameCore (t u : Task) : Prop :=
  u.id = t.id ∧ u.title = t.title ∧ u.status = t.status ∧ u.priority = t.priority ∧
  u.workstream = t.workstream ∧ u.owner = t.owner ∧ u.source = t.source ∧
  u.ticket_path = t.ticket_path ∧ u.created_at = t.created_at ∧ u.tags = t.tags

/-- A prefix-preservation order on task lists: the second list is at least
as long, and positionwise agrees with the first on all non-refreshed
fields. -/
def CorePrefix (ts us : List Task) : Prop :=
  ts.length ≤ us.length ∧
  ∀ (i : Nat) (t u : Task), ts[i]? = some t → us[i]? = some u → SameCore t u

/-- A task manually edited on the board (status `done`, priority `P3`),
keyed by the link of `exItemP`. -/
def exManualTask : Task :=
  { id := "mr-pricing", title := "Old title", status := "done", priority := "P3",
    workstream := "paas", owner := "human", score := 4, matched_terms := ["pricing"],
    action_plan := generalPlaybook, source := some ⟨"pricing", "f", none⟩,
    ticket_path := some "docs/tickets/old.md", created_at := -100, updated_at := -100,
    tags := ["market-research"] }

/-- A persisted board carrying only `exManualTask`. -/
def exBoardManual : Board := { defaultBoard 0 with tasks := [exManualTask] }

/-- A filesystem whose board JSON parses to `exBoardManual`. -/
def exFSManual : FS := ⟨some (some exBoardManual), none, none, []⟩

/-- The opportunity `score_item` yields for `exItemP`. -/
def exOpP : Opportunity := ⟨exItemP, 4, "pricing", ["pricing"]⟩

/-! ### Claim theorems -/

/-- C8: loading the persisted board never fails: a missing board file and an
unparseable board file both yield the freshly initialized default board
passed by `main`, and a parseable file yields its parsed content. -/
theorem claim8_load_json_or_default (d b : Board) :
    load_json_or_default none d = d ∧
    load_json_or_default (some none) d = d ∧
    load_json_or_default (some (some b)) d = b :=
  ⟨rfl, rfl, rfl⟩

/-- C5: the recency bonus is +3 up to and including an age of exactly 7
days, +1 strictly beyond 7 days up to and including 30 days, 0 beyond 30
days, and 0 when `published_at` is absent. -/
theorem claim5_recency_bonus (now p : Int) :
    (now - p ≤ 7 * 86400 → recencyBonus now (some p) = 3) ∧
    (7 * 86400 < now - p → now - p ≤ 30 * 86400 → recencyBonus now (some p) = 1) ∧
    (30 * 86400 < now - p → recencyBonus now (some p) = 0) ∧
    recencyBonus now none = 0 := by
  refine ⟨fun h => ?_, fun h1 h2 => ?_, fun h => ?_, rfl⟩
  · simp only [recencyBonus]
    rw [if_pos h]
  · simp only [recencyBonus]
    rw [if_neg (by omega), if_pos h2]
  · simp only [recencyBonus]
    rw [if_neg (by omega), if_neg (by omega)]

/-- Witness for C5 at the boundaries: exactly 7 days ⇒ 3, one second past
7 days ⇒ 1, one second past 30 days ⇒ 0. -/
theorem claim5_witness :
    recencyBonus 604800 (some 0) = 3 ∧
    recencyBonus 604801 (some 0) = 1 ∧
    recencyBonus 2592001 (some 0) = 0 :=
  ⟨(claim5_recency_bonus 604800 0).1 (by decide),
   (claim5_recency_bonus 604801 0).2.1 (by decide) (by decide),
   (claim5_recency_bonus 2592001 0).2.2.1 (by decide)⟩

/-- C4: `score_item` returns absence exactly when the computed total is
below 4; a keyword-total of exactly 3 (item titled "Release") is
discarded, and the spec's example item whose link contains "pricing" with
no publish date scores exactly 4, is retained, and is categorized
`pricing`. -/
theorem claim4_threshold :
    (∀ (now : Int) (item : FeedItem), score_item now item = none ↔ totalScore now item < 4) ∧
    totalScore 0 ⟨"Release", "https://x.io/r1", none, "f"⟩ = 3 ∧
    score_item 0 ⟨"Release", "https://x.io/r1", none, "f"⟩ = none ∧
    totalScore 0 ⟨"Untitled", "https://x.io/pricing", none, "f"⟩ = 4 ∧
    score_item 0 ⟨"Untitled", "https://x.io/pricing", none, "f"⟩ =
      some ⟨⟨"Untitled", "https://x.io/pricing", none, "f"⟩, 4, "pricing", ["pricing"]⟩ := by
  refine ⟨fun now item => ?_, by decide, by decide, by decide, by decide⟩
  by_cases h : totalScore now item < 4 <;> simp [score_item, h]

/-- C3 counterexample: two opportunities with equal score 4, the first
undated and the second dated (pre-epoch timestamp −1), where the ranking
places the undated one first — refuting "the dated one ranks first" for
every equal-score dated/undated pair. -/
theorem claim3_counterexample :
    ((rankSort (opportunitiesOf 1000000000 [exUndated, exDated])).map
        fun o => o.item.published_at) = [none, some (-1)] ∧
    ((rankSort (opportunitiesOf 1000000000 [exUndated, exDated])).map
        fun o => o.score) = [4, 4] := by
  decide

/-- C3 (amended): opportunities are ranked by a stable sort on the key
`(-score, -published_at_epoch_or_0)` — the result is sorted by that key
and is a permutation of the input; among equal scores an opportunity with
a *positive* publish epoch strictly precedes an undated one (an undated
item sorts as epoch 0, so it only loses ties against items dated after
the Unix epoch; a pre-epoch date loses to an undated item). -/
theorem claim3_ranking (l : List Opportunity) (a b : Opportunity) (e : Int)
    (hs : a.score = b.score) (ha : a.item.published_at = some e) (he : 0 < e)
    (hb : b.item.published_at = none) :
    List.Sorted rankLE (rankSort l) ∧ (rankSort l).Perm l ∧
    rankLE a b ∧ ¬ rankLE b a ∧ rankSort [b, a] = [a, b] := by
  have ka1 : (rankKey a).1 = -(a.score : Int) := rfl
  have kb1 : (rankKey b).1 = -(b.score : Int) := rfl
  have ka2 : (rankKey a).2 = -e := by simp [rankKey, epochOr0, ha]
  have kb2 : (rankKey b).2 = 0 := by simp [rankKey, epochOr0, hb]
  have hab : rankLE a b := by
    unfold rankLE
    rw [ka1, ka2, kb1, kb2, hs]
    omega
  have hnba : ¬ rankLE b a := by
    unfold rankLE
    rw [ka1, ka2, kb1, kb2, hs]
    omega
  refine ⟨List.sorted_insertionSort rankLE l, List.perm_insertionSort rankLE l, hab, hnba, ?_⟩
  simp only [rankSort, List.insertionSort, List.orderedInsert]
  rw [if_neg hnba]

/-- Witness for C3 (amended) at a concrete equal-score pair: the
positively-dated opportunity strictly precedes the undated one. -/
theorem claim3_witness :
    List.Sorted rankLE (rankSort [exOpUndated, exOpDated]) ∧
    (rankSort [exOpUndated, exOpDated]).Perm [exOpUndated, exOpDated] ∧
    rankLE exOpDated exOpUndated ∧ ¬ rankLE exOpUndated exOpDated ∧
    rankSort [exOpUndated, exOpDated] = [exOpDated, exOpUndated] :=
  claim3_ranking [exOpUndated, exOpDated] exOpDated exOpUndated 5 rfl rfl (by decide) rfl

/-- Python `max(..., key=λx: x[1])` splits its input around the returned
element: everything before it scores strictly less (so it is the first
entry attaining the maximum) and everything after it scores at most it. -/
theorem pythonMaxSnd_split :
    ∀ (xs : List (String × Nat)) (x : String × Nat),
      ∃ l1 l2, x :: xs = l1 ++ pythonMaxSnd x xs :: l2 ∧
        (∀ y ∈ l1, y.2 < (pythonMaxSnd x xs).2) ∧
        (∀ y ∈ l2, y.2 ≤ (pythonMaxSnd x xs).2)
  | [], x => ⟨[], [], rfl, by simp, by simp⟩
  | y :: ys, x => by
    have hstep : pythonMaxSnd x (y :: ys) = pythonMaxSnd (if x.2 < y.2 then y else x) ys := rfl
    by_cases hxy : x.2 < y.2
    · rw [if_pos hxy] at hstep
      obtain ⟨l1, l2, heq, hl1, hl2⟩ := pythonMaxSnd_split ys y
      have hym : y.2 ≤ (pythonMaxSnd y ys).2 := by
        have hy : y ∈ l1 ++ pythonMaxSnd y ys :: l2 := by
          rw [← heq]; exact List.mem_cons_self _ _
        rcases List.mem_append.1 hy with h | h
        · exact le_of_lt (hl1 _ h)
        · rcases List.mem_cons.1 h with h | h
          · exact le_of_eq (congrArg Prod.snd h)
          · exact hl2 _ h
      rw [hstep]
      refine ⟨x :: l1, l2, ?_, ?_, hl2⟩
      · rw [List.cons_append, ← heq]
      · intro z hz
        rcases List.mem_cons.1 hz with rfl | hz
        · exact lt_of_lt_of_le hxy hym
        · exact hl1 _ hz
    · rw [if_neg hxy] at hstep
      obtain ⟨l1, l2, heq, hl1, hl2⟩ := pythonMaxSnd_split ys x
      rw [hstep]
      cases l1 with
      | nil =>
        simp only [List.nil_append] at heq
        injection heq with hm hys
        refine ⟨[], y :: ys, ?_, by simp, ?_⟩
        · rw [List.nil_append, ← hm]
        · intro z hz
          rw [← hm]
          rcases List.mem_cons.1 hz with rfl | hz
          · omega
          · rw [hm]; exact hl2 _ (hys ▸ hz)
      | cons w l1' =>
        rw [List.cons_append] at heq
        injection heq with hw hys
        refine ⟨x :: y :: l1', l2, ?_, ?_, hl2⟩
        · rw [List.cons_append, List.cons_append, ← hys]
        · intro z hz
          have hxm : x.2 < (pythonMaxSnd x ys).2 := by
            have h1 := hl1 w (List.mem_cons_self _ _)
            have h2 : x.2 = w.2 := congrArg Prod.snd hw
            omega
          rcases List.mem_cons.1 hz with rfl | hz
          · exact hxm
          · rcases List.mem_cons.1 hz with rfl | hz
            · omega
            · exact hl1 _ (List.mem_cons_of_mem _ hz)

/-- The recency bonus never exceeds 3. -/
theorem recencyBonus_le_three (now : Int) (p : Option Int) : recencyBonus now p ≤ 3 := by
  cases p with
  | none => exact Nat.zero_le 3
  | some q =>
    show (if now - q ≤ 7 * 86400 then 3
      else if now - q ≤ 30 * 86400 then 1 else 0) ≤ 3
    split_ifs <;> omega

/-- What a retained result of `score_item` is, field by field. -/
theorem score_item_eq_some {now : Int} {item : FeedItem} {op : Opportunity}
    (h : score_item now item = some op) :
    4 ≤ totalScore now item ∧
      op = ⟨item, totalScore now item, chosenCategory item,
        sortedDedup (matchedTermsRaw item)⟩ := by
  unfold score_item at h
  by_cases hlt : totalScore now item < 4
  · rw [if_pos hlt] at h; cases h
  · rw [if_neg hlt] at h
    refine ⟨by omega, ?_⟩
    exact (Option.some.inj h).symm

/-- A retained item has at least one positive category score. -/
theorem categoryScores_ne_nil {now : Int} {item : FeedItem}
    (h4 : 4 ≤ totalScore now item) : categoryScores item ≠ [] := by
  intro hnil
  have hk : keywordTotal item = 0 := by
    unfold keywordTotal; rw [hnil]; rfl
  have hb := recencyBonus_le_three now item.published_at
  unfold totalScore at h4
  omega

/-- C6: for every retained item, the assigned category attains the maximum
accumulated keyword score, and is the first entry of the (filtered,
KEYWORD_WEIGHTS-ordered) category-score table attaining that maximum:
`category_scores` splits as `l1 ++ (category, s) :: l2` with every entry
of `l1` strictly below `s` and every entry anywhere at most `s`. -/
theorem claim6_category (now : Int) (item : FeedItem) (op : Opportunity)
    (h : score_item now item = some op) :
    ∃ s l1 l2,
      categoryScores item = l1 ++ (op.category, s) :: l2 ∧
      (∀ y ∈ categoryScores item, y.2 ≤ s) ∧
      (∀ y ∈ l1, y.2 < s) := by
  obtain ⟨h4, hop⟩ := score_item_eq_some h
  have hcat : op.category = chosenCategory item := by rw [hop]
  cases hcs : categoryScores item with
  | nil => exact absurd hcs (categoryScores_ne_nil h4)
  | cons x xs =>
    have hchosen : chosenCategory item = (pythonMaxSnd x xs).1 := by
      unfold chosenCategory; rw [hcs]
    obtain ⟨l1, l2, heq, hl1, hl2⟩ := pythonMaxSnd_split xs x
    refine ⟨(pythonMaxSnd x xs).2, l1, l2, ?_, ?_, hl1⟩
    · rw [hcat, hchosen, Prod.mk.eta, ← heq]
    · intro y hy
      rw [heq] at hy
      rcases List.mem_append.1 hy with hz | hz
      · exact le_of_lt (hl1 _ hz)
      · rcases List.mem_cons.1 hz with hz | hz
        · rw [hz]
        · exact hl2 _ hz

/-- Witness for C6 at a concrete category tie. -/
theorem claim6_witness :
    ∃ s l1 l2,
      categoryScores exTieItem = l1 ++ (exTieOp.category, s) :: l2 ∧
      (∀ y ∈ categoryScores exTieItem, y.2 ≤ s) ∧
      (∀ y ∈ l1, y.2 < s) :=
  claim6_category 0 exTieItem exTieOp (by decide)

/-! ### Merge-loop lemmas -/

theorem taskKey_refreshTask (now : Int) (op : Opportunity) (t : Task) :
    taskKey (refreshTask now op t) = taskKey t := rfl

theorem refreshTask_idem (now : Int) (op : Opportunity) (t : Task) :
    refreshTask now op (refreshTask now op t) = refreshTask now op t := rfl

theorem hasLink_refreshLast (now : Int) (op : Opportunity) (k' k : String) :
    ∀ ts : List Task, hasLink (refreshLast now op k' ts) k = hasLink ts k
  | [] => rfl
  | t :: rest => by
    simp only [refreshLast]
    by_cases hA : hasLink rest k'
    · rw [if_pos hA]
      simp only [hasLink, List.any_cons]
      rw [show (refreshLast now op k' rest).any (fun u => taskKey u == some k) =
        hasLink rest k from hasLink_refreshLast now op k' k rest]
      rfl
    · rw [if_neg hA]
      by_cases hB : taskKey t == some k'
      · rw [if_pos hB]
        simp only [hasLink, List.any_cons, taskKey_refreshTask]
      · rw [if_neg hB]

theorem length_refreshLast (now : Int) (op : Opportunity) (k : String) :
    ∀ ts : List Task, (refreshLast now op k ts).length = ts.length
  | [] => rfl
  | t :: rest => by
    simp only [refreshLast]
    by_cases hA : hasLink rest k
    · rw [if_pos hA]
      simp [length_refreshLast now op k rest]
    · rw [if_neg hA]
      by_cases hB : taskKey t == some k
      · rw [if_pos hB]; rfl
      · rw [if_neg hB]

theorem refreshLast_not_found (now : Int) (op : Opportunity) (k : String) :
    ∀ ts : List Task, hasLink ts k = false → refreshLast now op k ts = ts
  | [], _ => rfl
  | t :: rest, h => by
    have hsplit : (taskKey t == some k) = false ∧ hasLink rest k = false := by
      simpa [hasLink, List.any_cons] using h
    simp only [refreshLast]
    rw [if_neg (by simp [hsplit.2]), if_neg (by simp [hsplit.1])]

theorem refreshLast_idem (now : Int) (op : Opportunity) (k : String) :
    ∀ ts : List Task, refreshLast now op k (refreshLast now op k ts) = refreshLast now op k ts
  | [] => rfl
  | t :: rest => by
    simp only [refreshLast]
    by_cases hA : hasLink rest k
    · rw [if_pos hA]
      simp only [refreshLast]
      rw [if_pos (by rw [hasLink_refreshLast]; exact hA)]
      rw [refreshLast_idem now op k rest]
    · rw [if_neg hA]
      by_cases hB : taskKey t == some k
      · rw [if_pos hB]
        simp only [refreshLast]
        rw [if_neg (by simp [hA]), if_pos (by rw [taskKey_refreshTask]; exact hB),
          refreshTask_idem]
      · rw [if_neg hB]
        simp only [refreshLast]
        rw [if_neg (by simp [hA]), if_neg hB]

/-- `refreshLast` on the task list leaves the `existing_by_source` key
multiset untouched. -/
theorem filterMap_taskKey_refreshLast (now : Int) (op : Opportunity) (k : String) :
    ∀ ts : List Task, (refreshLast now op k ts).filterMap taskKey = ts.filterMap taskKey
  | [] => rfl
  | t :: rest => by
    simp only [refreshLast]
    by_cases hA : hasLink rest k
    · rw [if_pos hA]
      simp only [List.filterMap_cons]
      rw [filterMap_taskKey_refreshLast now op k rest]
    · rw [if_neg hA]
      by_cases hB : taskKey t == some k
      · rw [if_pos hB]
        simp only [List.filterMap_cons, taskKey_refreshTask]
      · rw [if_neg hB]

theorem hasLink_of_mem {ts : List Task} {t : Task} {k : String}
    (ht : t ∈ ts) (hk : taskKey t = some k) : hasLink ts k = true := by
  simp only [hasLink, List.any_eq_true]
  exact ⟨t, ht, by simp [hk]⟩

theorem FixedFor_of_not_found {now : Int} {ts : List Task} {op : Opportunity}
    (h : hasLink ts op.item.link = false) : FixedFor now ts op :=
  refreshLast_not_found now op op.item.link ts h

/-- Refreshing with a different key preserves refresh-fixedness. -/
theorem FixedFor_refreshLast {now : Int} {op : Opportunity} (op' : Opportunity)
    {k' : String} (hne : op.item.link ≠ k') :
    ∀ ts : List Task, FixedFor now ts op → FixedFor now (refreshLast now op' k' ts) op
  | [], _ => rfl
  | t :: rest, h => by
    set k := op.item.link with hk
    unfold FixedFor at h ⊢
    rw [← hk] at h ⊢
    simp only [refreshLast] at h ⊢
    by_cases hA' : hasLink rest k'
    · rw [if_pos hA']
      by_cases hA : hasLink rest k
      · rw [if_pos hA] at h
        have hres : refreshLast now op k rest = rest := List.cons.inj h |>.2
        simp only [refreshLast]
        rw [if_pos (by rw [hasLink_refreshLast]; exact hA)]
        have := FixedFor_refreshLast op' hne rest hres
        unfold FixedFor at this
        rw [← hk] at this
        rw [this]
      · rw [if_neg hA] at h
        by_cases hB : taskKey t == some k
        · rw [if_pos hB] at h
          have hft : refreshTask now op t = t := List.cons.inj h |>.1
          simp only [refreshLast]
          rw [if_neg (by rw [hasLink_refreshLast]; simpa using hA), if_pos hB, hft]
        · rw [if_neg hB] at h
          simp only [refreshLast]
          rw [if_neg (by rw [hasLink_refreshLast]; simpa using hA), if_neg hB]
    · rw [if_neg hA']
      by_cases hB' : taskKey t == some k'
      · rw [if_pos hB']
        by_cases hA : hasLink rest k
        · rw [if_pos hA] at h
          have hres : refreshLast now op k rest = rest := List.cons.inj h |>.2
          simp only [refreshLast]
          rw [if_pos hA, hres]
        · rw [if_neg hA] at h
          by_cases hB : taskKey t == some k
          · exact absurd (by
              have h1 : taskKey t = some k := by simpa using hB
              have h2 : taskKey t = some k' := by simpa using hB'
              rw [h1] at h2
              exact Option.some.inj h2) hne
          · rw [if_neg hB] at h
            simp only [refreshLast]
            rw [if_neg (by simpa using hA),
              if_neg (by rw [taskKey_refreshTask]; exact hB)]
      · rw [if_neg hB']
        exact h

theorem mergeStep_found {env : Env} {cfg : Cfg} {now : Int} {st : MergeState}
    {op : Opportunity} (h : hasLink st.tasks op.item.link = true) :
    mergeStep env cfg now st op =
      { st with tasks := refreshLast now op op.item.link st.tasks } := by
  unfold mergeStep
  rw [if_pos h]

theorem foldl_mergeStep_preserves_fixed (env : Env) (cfg : Cfg) (now : Int) :
    ∀ (ops : List Opportunity) (st : MergeState) (op : Opportunity),
      (∀ o' ∈ ops, hasLink st.tasks o'.item.link = true) →
      (∀ o' ∈ ops, op.item.link ≠ o'.item.link) →
      FixedFor now st.tasks op →
      FixedFor now (ops.foldl (mergeStep env cfg now) st).tasks op
  | [], st, op, _, _, hfix => hfix
  | o :: rest, st, op, hfound, hne, hfix => by
    rw [List.foldl_cons, mergeStep_found (hfound o (List.mem_cons_self _ _))]
    exact foldl_mergeStep_preserves_fixed env cfg now rest _ op
      (fun o' ho' => by
        rw [show ({ st with tasks := refreshLast now o o.item.link st.tasks } :
            MergeState).tasks = refreshLast now o o.item.link st.tasks from rfl,
          hasLink_refreshLast]
        exact hfound o' (List.mem_cons_of_mem _ ho'))
      (fun o' ho' => hne o' (List.mem_cons_of_mem _ ho'))
      (FixedFor_refreshLast o (hne o (List.mem_cons_self _ _)) st.tasks hfix)

theorem foldl_mergeStep_all_found (env : Env) (cfg : Cfg) (now : Int) :
    ∀ (ops : List Opportunity) (st : MergeState),
      (ops.map fun o => o.item.link).Nodup →
      (∀ op ∈ ops, hasLink st.tasks op.item.link = true) →
      (ops.foldl (mergeStep env cfg now) st).created = st.created ∧
      (ops.foldl (mergeStep env cfg now) st).createdPaths = st.createdPaths ∧
      (ops.foldl (mergeStep env cfg now) st).tickets = st.tickets ∧
      (∀ k, hasLink (ops.foldl (mergeStep env cfg now) st).tasks k = hasLink st.tasks k) ∧
      (∀ op ∈ ops, FixedFor now (ops.foldl (mergeStep env cfg now) st).tasks op)
  | [], st, _, _ => ⟨rfl, rfl, rfl, fun _ => rfl, by simp⟩
  | o :: rest, st, hnd, hfound => by
    have h0 := hfound o (List.mem_cons_self _ _)
    have hndr : (rest.map fun o => o.item.link).Nodup := by
      simpa using hnd.of_cons
    have hnotin : ∀ o' ∈ rest, o.item.link ≠ o'.item.link := by
      intro o' ho' heq
      have : o.item.link ∈ rest.map fun o => o.item.link :=
        List.mem_map.2 ⟨o', ho', heq.symm⟩
      exact (List.nodup_cons.1 (by simpa using hnd)).1 this
    rw [List.foldl_cons, mergeStep_found h0]
    set st1 : MergeState := { st with tasks := refreshLast now o o.item.link st.tasks }
      with hst1
    have hfound1 : ∀ op ∈ rest, hasLink st1.tasks op.item.link = true := by
      intro op hop
      rw [hst1]
      show hasLink (refreshLast now o o.item.link st.tasks) op.item.link = true
      rw [hasLink_refreshLast]
      exact hfound op (List.mem_cons_of_mem _ hop)
    obtain ⟨hc, hp, ht, hl, hfix⟩ :=
      foldl_mergeStep_all_found env cfg now rest st1 hndr hfound1
    refine ⟨hc, hp, ht, ?_, ?_⟩
    · intro k
      rw [hl k, hst1]
      show hasLink (refreshLast now o o.item.link st.tasks) k = hasLink st.tasks k
      rw [hasLink_refreshLast]
    · intro op hop
      rcases List.mem_cons.1 hop with rfl | hop
      · exact foldl_mergeStep_preserves_fixed env cfg now rest st1 op hfound1 hnotin
          (by rw [hst1]
              show FixedFor now (refreshLast now op op.item.link st.tasks) op
              unfold FixedFor
              exact refreshLast_idem now op op.item.link st.tasks)
      · exact hfix op hop

theorem foldl_mergeStep_fixed_id (env : Env) (cfg : Cfg) (now : Int) :
    ∀ (ops : List Opportunity) (st : MergeState),
      (∀ op ∈ ops, hasLink st.tasks op.item.link = true ∧ FixedFor now st.tasks op) →
      ops.foldl (mergeStep env cfg now) st = st
  | [], _, _ => rfl
  | o :: rest, st, h => by
    have h0 := h o (List.mem_cons_self _ _)
    rw [List.foldl_cons, mergeStep_found h0.1]
    have hfix : refreshLast now o o.item.link st.tasks = st.tasks := h0.2
    rw [show ({ st with tasks := refreshLast now o o.item.link st.tasks } :
        MergeState) = st by rw [hfix]]
    exact foldl_mergeStep_fixed_id env cfg now rest st
      fun op hop => h op (List.mem_cons_of_mem _ hop)

/-! ### Filesystem-slot and summary-field lemmas for `runReconcile` -/

theorem runReconcile_boardJson (env : Env) (cfg : Cfg) (now : Int)
    (fetched : List FeedItem) (errs : List String) (fs : FS) :
    (runReconcile env cfg now fetched errs fs).1.boardJson =
      some (some (finalBoard env cfg now fetched fs)) := by
  show (write_if_changed fs.boardJson (some (finalBoard env cfg now fetched fs))).1 =
    some (some (finalBoard env cfg now fetched fs))
  unfold write_if_changed
  split
  · rename_i h; rw [h]
  · rfl

theorem runReconcile_boardMd (env : Env) (cfg : Cfg) (now : Int)
    (fetched : List FeedItem) (errs : List String) (fs : FS) :
    (runReconcile env cfg now fetched errs fs).1.boardMd =
      some (finalMd env cfg now fetched fs) := by
  show (write_if_changed fs.boardMd (finalMd env cfg now fetched fs)).1 =
    some (finalMd env cfg now fetched fs)
  unfold write_if_changed
  split
  · rename_i h; rw [h]
  · rfl

theorem runReconcile_report (env : Env) (cfg : Cfg) (now : Int)
    (fetched : List FeedItem) (errs : List String) (fs : FS) :
    (runReconcile env cfg now fetched errs fs).1.report =
      some (finalReport env cfg now fetched errs fs) := by
  show (write_if_changed fs.report (finalReport env cfg now fetched errs fs)).1 =
    some (finalReport env cfg now fetched errs fs)
  unfold write_if_changed
  split
  · rename_i h; rw [h]
  · rfl

theorem runReconcile_tickets (env : Env) (cfg : Cfg) (now : Int)
    (fetched : List FeedItem) (errs : List String) (fs : FS) :
    (runReconcile env cfg now fetched errs fs).1.tickets =
      (mergeResult env cfg now fetched fs).tickets := rfl

theorem runReconcile_new_tasks (env : Env) (cfg : Cfg) (now : Int)
    (fetched : List FeedItem) (errs : List String) (fs : FS) :
    (runReconcile env cfg now fetched errs fs).2.new_tasks =
      (mergeResult env cfg now fetched fs).created := rfl

theorem runReconcile_created_paths (env : Env) (cfg : Cfg) (now : Int)
    (fetched : List FeedItem) (errs : List String) (fs : FS) :
    (runReconcile env cfg now fetched errs fs).2.created_ticket_paths =
      (mergeResult env cfg now fetched fs).createdPaths := rfl

theorem runReconcile_md_changed (env : Env) (cfg : Cfg) (now : Int)
    (fetched : List FeedItem) (errs : List String) (fs : FS) :
    (runReconcile env cfg now fetched errs fs).2.board_md_changed =
      (write_if_changed fs.boardMd (finalMd env cfg now fetched fs)).2 := rfl

theorem runReconcile_report_changed (env : Env) (cfg : Cfg) (now : Int)
    (fetched : List FeedItem) (errs : List String) (fs : FS) :
    (runReconcile env cfg now fetched errs fs).2.report_changed =
      (write_if_changed fs.report (finalReport env cfg now fetched errs fs)).2 := rfl

/-! ### The links of `top` are distinct (a consequence of the dedup pass) -/

theorem dedupAux_spec : ∀ (l : List FeedItem) (seen : List String),
    (∀ i ∈ dedupAux seen l, seen.contains i.link = false) ∧
    ((dedupAux seen l).map fun i => i.link).Nodup
  | [], _ => ⟨fun i hi => absurd hi (by simp [dedupAux]), by simp [dedupAux]⟩
  | i :: rest, seen => by
    by_cases h : seen.contains i.link = true
    · have heq : dedupAux seen (i :: rest) = dedupAux seen rest := by
        show (if seen.contains i.link = true then dedupAux seen rest
          else i :: dedupAux (i.link :: seen) rest) = dedupAux seen rest
        rw [if_pos h]
      rw [heq]
      exact dedupAux_spec rest seen
    · have heq : dedupAux seen (i :: rest) = i :: dedupAux (i.link :: seen) rest := by
        show (if seen.contains i.link = true then dedupAux seen rest
          else i :: dedupAux (i.link :: seen) rest) = i :: dedupAux (i.link :: seen) rest
        rw [if_neg h]
      rw [heq]
      obtain ⟨hmem, hnd⟩ := dedupAux_spec rest (i.link :: seen)
      constructor
      · intro j hj
        rcases List.mem_cons.1 hj with rfl | hj
        · exact Bool.eq_false_iff.mpr h
        · have h2 := hmem j hj
          rw [List.contains_cons] at h2
          exact (Bool.or_eq_false_iff.1 h2).2
      · rw [List.map_cons, List.nodup_cons]
        refine ⟨fun hin => ?_, hnd⟩
        obtain ⟨j, hj, hlink⟩ := List.mem_map.1 hin
        have h2 := hmem j hj
        rw [List.contains_cons] at h2
        have h3 := (Bool.or_eq_false_iff.1 h2).1
        rw [hlink] at h3
        simp at h3

theorem dedupByLink_links_nodup (l : List FeedItem) :
    ((dedupByLink l).map fun i => i.link).Nodup :=
  (dedupAux_spec l []).2

/-- A retained opportunity carries its item unchanged. -/
theorem score_item_item {now : Int} {item : FeedItem} {op : Opportunity}
    (h : score_item now item = some op) : op.item = item := by
  obtain ⟨-, hop⟩ := score_item_eq_some h
  rw [hop]

theorem opportunities_links_sublist (now : Int) :
    ∀ l : List FeedItem,
      ((l.filterMap (score_item now)).map fun o => o.item.link).Sublist
        (l.map fun i => i.link)
  | [] => List.Sublist.refl _
  | i :: rest => by
    rw [List.filterMap_cons]
    cases h : score_item now i with
    | none =>
      exact (opportunities_links_sublist now rest).trans (List.sublist_cons_self _ _)
    | some op =>
      rw [List.map_cons, List.map_cons,
        show op.item.link = i.link by rw [score_item_item h]]
      exact (opportunities_links_sublist now rest).cons₂ _

theorem topOf_links_nodup (cfg : Cfg) (now : Int) (fetched : List FeedItem) :
    ((topOf cfg now fetched).map fun o => o.item.link).Nodup := by
  have h1 : ((opportunitiesOf now fetched).map fun o => o.item.link).Nodup :=
    (dedupByLink_links_nodup fetched).sublist (opportunities_links_sublist now _)
  have h2 : ((rankSort (opportunitiesOf now fetched)).map fun o => o.item.link).Nodup := by
    have hperm := (List.perm_insertionSort rankLE (opportunitiesOf now fetched)).map
      fun o => o.item.link
    exact hperm.nodup_iff.2 h1
  have h3 := h2.sublist
    ((List.take_sublist (max 0 cfg.maxOpportunities).toNat
      (rankSort (opportunitiesOf now fetched))).map (fun o : Opportunity => o.item.link))
  simpa [topOf] using h3

/-- C1 counterexample: the claim "all `*_changed` flags in the summary are
false on the second run" fails on the code.  (1) On a no-signal rerun the
history log grows inside the board JSON, so `board_json_changed` is `true`
on the second run.  (2) When the first run created a task, the second
run's report says "New tasks created: 0" instead of "1", so
`report_changed` is `true` on the second run. -/
theorem claim1_counterexample :
    ((runReconcile exEnv exCfg 0 [] []
        ((runReconcile exEnv exCfg 0 [] [] exFS).1)).2).board_json_changed = true ∧
    ((runReconcile exEnv exCfg 0 [exItemP] []
        ((runReconcile exEnv exCfg 0 [exItemP] [] exFS).1)).2).report_changed = true := by
  constructor
  · decide
  · decide

/-- C1 (amended): when every top opportunity already has a task on the
loaded board (so the first run creates nothing — without this, a
budget-skipped opportunity is created on the second run, and a first run
that created tasks changes the "New tasks created" line of the report),
the second reconcile run with the same inputs performs no Markdown,
report, or ticket write (`board_md_changed` and `report_changed` are
false, no ticket path is created, the ticket map is untouched) and
changes the board JSON only in the history log (tasks, `updated_at`,
columns and version are byte-identical, so `board_json_changed` can only
stem from history growth); and every persisted-file write — board JSON,
board Markdown, per-ticket file — happens only if the new serialized
content differs from the file's current content. -/
theorem claim1_idempotent (env : Env) (cfg : Cfg) (now : Int) (fetched : List FeedItem)
    (errs : List String) (fs : FS)
    (h0 : ∀ op ∈ topOf cfg now fetched,
      hasLink (loadedBoard now fs).tasks op.item.link = true) :
    (runReconcile env cfg now fetched errs
        (runReconcile env cfg now fetched errs fs).1).2.board_md_changed = false ∧
    (runReconcile env cfg now fetched errs
        (runReconcile env cfg now fetched errs fs).1).2.report_changed = false ∧
    (runReconcile env cfg now fetched errs
        (runReconcile env cfg now fetched errs fs).1).2.new_tasks = 0 ∧
    (runReconcile env cfg now fetched errs
        (runReconcile env cfg now fetched errs fs).1).2.created_ticket_paths = [] ∧
    (runReconcile env cfg now fetched errs
        (runReconcile env cfg now fetched errs fs).1).1.tickets =
      (runReconcile env cfg now fetched errs fs).1.tickets ∧
    (∃ b1 b2,
      (runReconcile env cfg now fetched errs fs).1.boardJson = some (some b1) ∧
      (runReconcile env cfg now fetched errs
          (runReconcile env cfg now fetched errs fs).1).1.boardJson = some (some b2) ∧
      b2.tasks = b1.tasks ∧ b2.updated_at = b1.updated_at ∧
      b2.columns = b1.columns ∧ b2.version = b1.version) ∧
    (∀ (e : Option String) (c : String), (write_if_changed e c).2 = true ↔ ¬ e = some c) ∧
    (∀ (m : List (String × String)) (p c : String),
      lookupAssoc m p = some c → ticketWrite m p c = m) := by
  obtain ⟨hc, hp, ht, hl, hfix⟩ := foldl_mergeStep_all_found env cfg now
    (topOf cfg now fetched)
    ⟨(loadedBoard now fs).tasks, 0, [], fs.tickets⟩
    (topOf_links_nodup cfg now fetched) h0
  set fs1 := (runReconcile env cfg now fetched errs fs).1 with hfs1
  have hbj1 : fs1.boardJson = some (some (finalBoard env cfg now fetched fs)) := by
    have h := runReconcile_boardJson env cfg now fetched errs fs
    rw [← hfs1] at h
    exact h
  have hload1 : loadedBoard now fs1 = finalBoard env cfg now fetched fs := by
    unfold loadedBoard
    rw [hbj1]
    rfl
  have hfb_tasks : (finalBoard env cfg now fetched fs).tasks =
      (mergeResult env cfg now fetched fs).tasks := rfl
  have hfound1 : ∀ op ∈ topOf cfg now fetched,
      hasLink (finalBoard env cfg now fetched fs).tasks op.item.link = true := by
    intro op hop
    have hlk : hasLink (mergeResult env cfg now fetched fs).tasks op.item.link =
        hasLink (loadedBoard now fs).tasks op.item.link := hl op.item.link
    rw [hfb_tasks, hlk]
    exact h0 op hop
  have hmr2 : mergeResult env cfg now fetched fs1 =
      ⟨(finalBoard env cfg now fetched fs).tasks, 0, [], fs1.tickets⟩ := by
    show (topOf cfg now fetched).foldl (mergeStep env cfg now)
      ⟨(loadedBoard now fs1).tasks, 0, [], fs1.tickets⟩ = _
    rw [hload1]
    exact foldl_mergeStep_fixed_id env cfg now (topOf cfg now fetched)
      ⟨(finalBoard env cfg now fetched fs).tasks, 0, [], fs1.tickets⟩
      (fun op hop => ⟨hfound1 op hop, hfix op hop⟩)
  have hb2tasks : (finalBoard env cfg now fetched fs1).tasks =
      (finalBoard env cfg now fetched fs).tasks := by
    show (mergeResult env cfg now fetched fs1).tasks = _
    rw [hmr2]
  have hb2upd : (finalBoard env cfg now fetched fs1).updated_at =
      (finalBoard env cfg now fetched fs).updated_at := rfl
  have hb2cols : (finalBoard env cfg now fetched fs1).columns =
      (finalBoard env cfg now fetched fs).columns := by
    show (loadedBoard now fs1).columns = _
    rw [hload1]
  have hb2ver : (finalBoard env cfg now fetched fs1).version =
      (finalBoard env cfg now fetched fs).version := by
    show (loadedBoard now fs1).version = _
    rw [hload1]
  have hmdeq : finalMd env cfg now fetched fs1 = finalMd env cfg now fetched fs := by
    unfold finalMd render_board_markdown
    rw [hb2tasks, hb2upd, hb2cols]
  have hrepeq : finalReport env cfg now fetched errs fs1 =
      finalReport env cfg now fetched errs fs := by
    unfold finalReport
    rw [show (mergeResult env cfg now fetched fs1).created = 0 from by rw [hmr2],
      show (mergeResult env cfg now fetched fs).created = 0 from hc]
  refine ⟨?_, ?_, ?_, ?_, ?_, ?_, ?_, ?_⟩
  · rw [runReconcile_md_changed env cfg now fetched errs fs1]
    have hmd1 := runReconcile_boardMd env cfg now fetched errs fs
    rw [← hfs1] at hmd1
    rw [hmd1, hmdeq]
    unfold write_if_changed
    rw [if_pos rfl]
  · rw [runReconcile_report_changed env cfg now fetched errs fs1]
    have hrep1 := runReconcile_report env cfg now fetched errs fs
    rw [← hfs1] at hrep1
    rw [hrep1, hrepeq]
    unfold write_if_changed
    rw [if_pos rfl]
  · rw [runReconcile_new_tasks env cfg now fetched errs fs1, hmr2]
  · rw [runReconcile_created_paths env cfg now fetched errs fs1, hmr2]
  · rw [runReconcile_tickets env cfg now fetched errs fs1, hmr2]
  · exact ⟨finalBoard env cfg now fetched fs, finalBoard env cfg now fetched fs1,
      hbj1, runReconcile_boardJson env cfg now fetched errs fs1,
      hb2tasks, hb2upd, hb2cols, hb2ver⟩
  · intro e c
    unfold write_if_changed
    by_cases h : e = some c
    · rw [if_pos h]
      simp [h]
    · rw [if_neg h]
      simp [h]
  · intro m p c h
    unfold ticketWrite
    rw [h]
    show (if c = c then m else setAssoc m p c) = m
    rw [if_pos rfl]

/-- Witness for C1 (amended) on a no-signal rerun: the empty top set makes
the precondition vacuous; both runs leave the Markdown/report/ticket
state untouched on the second pass. -/
theorem claim1_witness :
    (runReconcile exEnv exCfg 0 [] []
        (runReconcile exEnv exCfg 0 [] [] exFS).1).2.board_md_changed = false ∧
    (runReconcile exEnv exCfg 0 [] []
        (runReconcile exEnv exCfg 0 [] [] exFS).1).2.report_changed = false ∧
    (runReconcile exEnv exCfg 0 [] []
        (runReconcile exEnv exCfg 0 [] [] exFS).1).2.new_tasks = 0 ∧
    (runReconcile exEnv exCfg 0 [] []
        (runReconcile exEnv exCfg 0 [] [] exFS).1).2.created_ticket_paths = [] ∧
    (runReconcile exEnv exCfg 0 [] []
        (runReconcile exEnv exCfg 0 [] [] exFS).1).1.tickets =
      (runReconcile exEnv exCfg 0 [] [] exFS).1.tickets ∧
    (∃ b1 b2,
      (runReconcile exEnv exCfg 0 [] [] exFS).1.boardJson = some (some b1) ∧
      (runReconcile exEnv exCfg 0 [] []
          (runReconcile exEnv exCfg 0 [] [] exFS).1).1.boardJson = some (some b2) ∧
      b2.tasks = b1.tasks ∧ b2.updated_at = b1.updated_at ∧
      b2.columns = b1.columns ∧ b2.version = b1.version) ∧
    (∀ (e : Option String) (c : String), (write_if_changed e c).2 = true ↔ ¬ e = some c) ∧
    (∀ (m : List (String × String)) (p c : String),
      lookupAssoc m p = some c → ticketWrite m p c = m) :=
  claim1_idempotent exEnv exCfg 0 [] [] exFS (by decide)

/-! ### C7 and C10: ticket budget and cap clamping -/

theorem foldl_mergeStep_budget0 (env : Env) (cfg : Cfg) (now : Int)
    (h : (max 0 cfg.maxNewTickets).toNat = 0) :
    ∀ (ops : List Opportunity) (st : MergeState),
      (ops.foldl (mergeStep env cfg now) st).created = st.created ∧
      (ops.foldl (mergeStep env cfg now) st).createdPaths = st.createdPaths ∧
      (ops.foldl (mergeStep env cfg now) st).tickets = st.tickets ∧
      (ops.foldl (mergeStep env cfg now) st).tasks.length = st.tasks.length
  | [], st => ⟨rfl, rfl, rfl, rfl⟩
  | op :: rest, st => by
    have hstep : (mergeStep env cfg now st op).created = st.created ∧
        (mergeStep env cfg now st op).createdPaths = st.createdPaths ∧
        (mergeStep env cfg now st op).tickets = st.tickets ∧
        (mergeStep env cfg now st op).tasks.length = st.tasks.length := by
      unfold mergeStep
      by_cases hA : hasLink st.tasks op.item.link = true
      · rw [if_pos hA]
        exact ⟨rfl, rfl, rfl, length_refreshLast now op op.item.link st.tasks⟩
      · rw [if_neg hA, if_pos (by rw [h]; exact Nat.zero_le _)]
        exact ⟨rfl, rfl, rfl, rfl⟩
    obtain ⟨hc, hp, ht, hlen⟩ :=
      foldl_mergeStep_budget0 env cfg now h rest (mergeStep env cfg now st op)
    exact ⟨by rw [List.foldl_cons, hc, hstep.1],
      by rw [List.foldl_cons, hp, hstep.2.1],
      by rw [List.foldl_cons, ht, hstep.2.2.1],
      by rw [List.foldl_cons, hlen, hstep.2.2.2]⟩

/-- C10: a negative `--max-opportunities` yields an empty top-N selection,
and a negative `--max-new-tickets` means the run creates no task, records
no created ticket path, writes no ticket file, and leaves the task-list
length unchanged — both caps behave as zero via `max(0, cap)`. -/
theorem claim10_negative_caps (env : Env) (cfg : Cfg) (now : Int)
    (fetched : List FeedItem) (errs : List String) (fs : FS) :
    (cfg.maxOpportunities < 0 → topOf cfg now fetched = []) ∧
    (cfg.maxNewTickets < 0 →
      (runReconcile env cfg now fetched errs fs).2.new_tasks = 0 ∧
      (runReconcile env cfg now fetched errs fs).2.created_ticket_paths = [] ∧
      (runReconcile env cfg now fetched errs fs).1.tickets = fs.tickets ∧
      (∃ b, (runReconcile env cfg now fetched errs fs).1.boardJson = some (some b) ∧
        b.tasks.length = (loadedBoard now fs).tasks.length)) := by
  constructor
  · intro h
    unfold topOf
    rw [max_eq_left (le_of_lt h)]
    exact List.take_zero _
  · intro h
    have hz : (max 0 cfg.maxNewTickets).toNat = 0 := by
      rw [max_eq_left (le_of_lt h)]; rfl
    obtain ⟨hc, hp, ht, hlen⟩ := foldl_mergeStep_budget0 env cfg now hz
      (topOf cfg now fetched) ⟨(loadedBoard now fs).tasks, 0, [], fs.tickets⟩
    refine ⟨?_, ?_, ?_, finalBoard env cfg now fetched fs,
      runReconcile_boardJson env cfg now fetched errs fs, ?_⟩
    · rw [runReconcile_new_tasks env cfg now fetched errs fs]
      exact hc
    · rw [runReconcile_created_paths env cfg now fetched errs fs]
      exact hp
    · rw [runReconcile_tickets env cfg now fetched errs fs]
      exact ht
    · exact hlen

/-- Witness for C10 with both caps set to −1 on a one-item input. -/
theorem claim10_witness :
    topOf ⟨-1, -1⟩ 0 [exItemP] = [] ∧
    ((runReconcile exEnv ⟨-1, -1⟩ 0 [exItemP] [] exFS).2.new_tasks = 0 ∧
      (runReconcile exEnv ⟨-1, -1⟩ 0 [exItemP] [] exFS).2.created_ticket_paths = [] ∧
      (runReconcile exEnv ⟨-1, -1⟩ 0 [exItemP] [] exFS).1.tickets = exFS.tickets ∧
      (∃ b, (runReconcile exEnv ⟨-1, -1⟩ 0 [exItemP] [] exFS).1.boardJson =
          some (some b) ∧
        b.tasks.length = (loadedBoard 0 exFS).tasks.length)) :=
  ⟨(claim10_negative_caps exEnv ⟨-1, -1⟩ 0 [exItemP] [] exFS).1 (by decide),
   (claim10_negative_caps exEnv ⟨-1, -1⟩ 0 [exItemP] [] exFS).2 (by decide)⟩

/-- C7: a new task/ticket is created only while the per-run creation count
is below `max(0, max_new_tickets)`; once the budget is exhausted an unseen
opportunity leaves the merge state completely unchanged (skipped silently,
no error recorded).  Concretely, with `max_new_tickets = 1` and two unseen
top opportunities, exactly one task/ticket is created (for the
first-ranked one), the board holds only its link, and on a later run with
fresh budget the deferred second opportunity is created. -/
theorem claim7_budget (env : Env) (cfg : Cfg) (now : Int) (st : MergeState)
    (op : Opportunity) :
    (hasLink st.tasks op.item.link = false →
      (max 0 cfg.maxNewTickets).toNat ≤ st.created →
      mergeStep env cfg now st op = st) ∧
    (hasLink st.tasks op.item.link = false →
      st.created < (max 0 cfg.maxNewTickets).toNat →
      (mergeStep env cfg now st op).tasks =
        st.tasks ++ [newTask env now op (ticketRelPath env op)] ∧
      (mergeStep env cfg now st op).created = st.created + 1 ∧
      (mergeStep env cfg now st op).createdPaths =
        st.createdPaths ++ [ticketRelPath env op]) ∧
    (runReconcile exEnv exCfg1 0 [exItemA, exItemB] [] exFS).2.new_tasks = 1 ∧
    (runReconcile exEnv exCfg1 0 [exItemA, exItemB] [] exFS).2.created_ticket_paths =
      ["docs/tickets/20261012-a.md"] ∧
    ((runReconcile exEnv exCfg1 0 [exItemA, exItemB] [] exFS).1.boardJson.map
        fun ob => ob.map fun b => b.tasks.map taskKey) =
      some (some [some "pricing-a"]) ∧
    (runReconcile exEnv exCfg1 0 [exItemA, exItemB] []
        (runReconcile exEnv exCfg1 0 [exItemA, exItemB] [] exFS).1).2.new_tasks = 1 ∧
    ((runReconcile exEnv exCfg1 0 [exItemA, exItemB] []
          (runReconcile exEnv exCfg1 0 [exItemA, exItemB] [] exFS).1).1.boardJson.map
        fun ob => ob.map fun b => b.tasks.map taskKey) =
      some (some [some "pricing-a", some "pricing-b"]) := by
  refine ⟨?_, ?_, by decide, by decide, by decide, by decide, by decide⟩
  · intro h1 h2
    unfold mergeStep
    rw [if_neg (by rw [h1]; exact Bool.false_ne_true), if_pos h2]
  · intro h1 h2
    unfold mergeStep
    rw [if_neg (by rw [h1]; exact Bool.false_ne_true), if_neg (by omega)]
    exact ⟨rfl, rfl, rfl⟩

/-- Witness for C7 at a concrete exhausted-budget state: the unseen
opportunity is skipped with the merge state unchanged, and at the same
state under budget the task is appended. -/
theorem claim7_witness :
    mergeStep exEnv exCfg1 0 ⟨[], 5, [], []⟩ exOpDated = ⟨[], 5, [], []⟩ ∧
    (mergeStep exEnv exCfg1 0 ⟨[], 0, [], []⟩ exOpDated).created = 0 + 1 :=
  ⟨(claim7_budget exEnv exCfg1 0 ⟨[], 5, [], []⟩ exOpDated).1 (by decide) (by decide),
   ((claim7_budget exEnv exCfg1 0 ⟨[], 0, [], []⟩ exOpDated).2.1 (by decide)
      (by decide)).2.1⟩

/-! ### C9: the merge never deletes or reorders tasks -/

theorem SameCore_refl (t : Task) : SameCore t t :=
  ⟨rfl, rfl, rfl, rfl, rfl, rfl, rfl, rfl, rfl, rfl⟩

theorem SameCore_refreshTask (now : Int) (op : Opportunity) (t : Task) :
    SameCore t (refreshTask now op t) :=
  ⟨rfl, rfl, rfl, rfl, rfl, rfl, rfl, rfl, rfl, rfl⟩

theorem SameCore_trans {t u v : Task} (h1 : SameCore t u) (h2 : SameCore u v) :
    SameCore t v := by
  obtain ⟨a1, a2, a3, a4, a5, a6, a7, a8, a9, a10⟩ := h1
  obtain ⟨b1, b2, b3, b4, b5, b6, b7, b8, b9, b10⟩ := h2
  exact ⟨b1.trans a1, b2.trans a2, b3.trans a3, b4.trans a4, b5.trans a5,
    b6.trans a6, b7.trans a7, b8.trans a8, b9.trans a9, b10.trans a10⟩

theorem mem_of_getElem_opt {α : Type} {l : List α} {i : Nat} {a : α}
    (h : l[i]? = some a) : a ∈ l := by
  obtain ⟨hi, rfl⟩ := List.getElem?_eq_some_iff.1 h
  exact List.getElem_mem hi

/-- Pointwise description of `refreshLast`: each position is unchanged, or
holds the refresh of the previous task — and in the latter case the task
carried the refreshed key. -/
theorem refreshLast_getElem (now : Int) (op : Opportunity) (k : String) :
    ∀ (ts : List Task) (i : Nat),
      (refreshLast now op k ts)[i]? = ts[i]? ∨
      ∃ t, ts[i]? = some t ∧ taskKey t = some k ∧
        (refreshLast now op k ts)[i]? = some (refreshTask now op t)
  | [], _ => Or.inl rfl
  | t :: rest, i => by
    simp only [refreshLast]
    by_cases hA : hasLink rest k = true
    · rw [if_pos hA]
      cases i with
      | zero => exact Or.inl (by simp)
      | succ n =>
        rcases refreshLast_getElem now op k rest n with h | ⟨u, hu, hk, hr⟩
        · exact Or.inl (by simpa using h)
        · exact Or.inr ⟨u, by simpa using hu, hk, by simpa using hr⟩
    · rw [if_neg hA]
      by_cases hB : (taskKey t == some k) = true
      · rw [if_pos hB]
        cases i with
        | zero => exact Or.inr ⟨t, by simp, by simpa using hB, by simp⟩
        | succ n => exact Or.inl (by simp)
      · rw [if_neg hB]
        exact Or.inl rfl

theorem CorePrefix_refl (ts : List Task) : CorePrefix ts ts :=
  ⟨le_refl _, fun _ t u ht hu => by
    rw [ht] at hu
    exact (Option.some.inj hu) ▸ SameCore_refl t⟩

theorem CorePrefix_trans {ts us vs : List Task}
    (h1 : CorePrefix ts us) (h2 : CorePrefix us vs) : CorePrefix ts vs := by
  refine ⟨h1.1.trans h2.1, fun i t v ht hv => ?_⟩
  have hi : i < ts.length := (List.getElem?_eq_some_iff.1 ht).1
  have hiu : i < us.length := lt_of_lt_of_le hi h1.1
  have hu : us[i]? = some (us.get ⟨i, hiu⟩) := List.getElem?_eq_getElem hiu
  exact SameCore_trans (h1.2 i t _ ht hu) (h2.2 i _ v hu hv)

theorem mergeStep_corePrefix (env : Env) (cfg : Cfg) (now : Int) (st : MergeState)
    (op : Opportunity) : CorePrefix st.tasks (mergeStep env cfg now st op).tasks := by
  unfold mergeStep
  by_cases hA : hasLink st.tasks op.item.link = true
  · rw [if_pos hA]
    refine ⟨le_of_eq (length_refreshLast now op op.item.link st.tasks).symm,
      fun i t u ht hu => ?_⟩
    rcases refreshLast_getElem now op op.item.link st.tasks i with h | ⟨t', ht', -, hr⟩
    · rw [h, ht] at hu
      exact (Option.some.inj hu) ▸ SameCore_refl t
    · rw [ht] at ht'
      obtain rfl : t = t' := Option.some.inj ht'
      rw [hr] at hu
      exact (Option.some.inj hu) ▸ SameCore_refreshTask now op t
  · rw [if_neg hA]
    by_cases hB : st.created ≥ (max 0 cfg.maxNewTickets).toNat
    · rw [if_pos hB]
      exact CorePrefix_refl st.tasks
    · rw [if_neg hB]
      refine ⟨by simp, fun i t u ht hu => ?_⟩
      have hi : i < st.tasks.length := (List.getElem?_eq_some_iff.1 ht).1
      rw [List.getElem?_append_left hi, ht] at hu
      exact (Option.some.inj hu) ▸ SameCore_refl t

theorem foldl_mergeStep_corePrefix (env : Env) (cfg : Cfg) (now : Int) :
    ∀ (ops : List Opportunity) (st : MergeState),
      CorePrefix st.tasks ((ops.foldl (mergeStep env cfg now) st).tasks)
  | [], st => CorePrefix_refl st.tasks
  | op :: rest, st =>
    CorePrefix_trans (mergeStep_corePrefix env cfg now st op)
      (foldl_mergeStep_corePrefix env cfg now rest (mergeStep env cfg now st op))

/-- C9: reconciliation never deletes or reorders tasks — every task of the
loaded board is still at its original position in the written board (with
only the four refreshed fields possibly different), and the task list can
only grow at the end. -/
theorem claim9_append_only (env : Env) (cfg : Cfg) (now : Int) (fetched : List FeedItem)
    (errs : List String) (fs : FS) :
    ∃ b', (runReconcile env cfg now fetched errs fs).1.boardJson = some (some b') ∧
      (loadedBoard now fs).tasks.length ≤ b'.tasks.length ∧
      ∀ (i : Nat) (t u : Task), (loadedBoard now fs).tasks[i]? = some t →
        b'.tasks[i]? = some u → SameCore t u := by
  have h := foldl_mergeStep_corePrefix env cfg now (topOf cfg now fetched)
    ⟨(loadedBoard now fs).tasks, 0, [], fs.tickets⟩
  exact ⟨finalBoard env cfg now fetched fs,
    runReconcile_boardJson env cfg now fetched errs fs, h.1, h.2⟩

/-- Witness for C9: a concrete run on a board with one manually-edited
task; the task keeps its position and non-refreshed fields. -/
theorem claim9_witness :
    ∃ b', (runReconcile exEnv exCfg 0 [exItemA, exItemB] [] exFS).1.boardJson =
        some (some b') ∧
      (loadedBoard 0 exFS).tasks.length ≤ b'.tasks.length ∧
      ∀ (i : Nat) (t u : Task), (loadedBoard 0 exFS).tasks[i]? = some t →
        b'.tasks[i]? = some u → SameCore t u :=
  claim9_append_only exEnv exCfg 0 [exItemA, exItemB] [] exFS

/-! ### C2: the refresh hits exactly the matched task and its four fields -/

theorem hasLink_iff {ts : List Task} {k : String} :
    hasLink ts k = true ↔ k ∈ ts.filterMap taskKey := by
  simp only [hasLink, List.any_eq_true, List.mem_filterMap]
  constructor
  · rintro ⟨t, ht, he⟩
    exact ⟨t, ht, by simpa using he⟩
  · rintro ⟨t, ht, he⟩
    exact ⟨t, ht, by simp [he]⟩

theorem nodup_filterMap_tail {t0 : Task} {rest : List Task}
    (hnd : ((t0 :: rest).filterMap taskKey).Nodup) :
    (rest.filterMap taskKey).Nodup := by
  rw [List.filterMap_cons] at hnd
  cases h : taskKey t0 with
  | none => rw [h] at hnd; exact hnd
  | some k => rw [h] at hnd; exact (List.nodup_cons.1 hnd).2

theorem not_hasLink_rest {t0 : Task} {rest : List Task} {k : String}
    (hnd : ((t0 :: rest).filterMap taskKey).Nodup) (hk : taskKey t0 = some k) :
    hasLink rest k = false := by
  rw [List.filterMap_cons, hk] at hnd
  have hnotin : k ∉ rest.filterMap taskKey := (List.nodup_cons.1 hnd).1
  rw [← Bool.not_eq_true]
  intro hc
  exact hnotin (hasLink_iff.1 hc)

theorem refreshLast_getElem_ne (now : Int) (op : Opportunity) (k : String)
    {ts : List Task} {i : Nat} {t : Task}
    (ht : ts[i]? = some t) (hne : taskKey t ≠ some k) :
    (refreshLast now op k ts)[i]? = some t := by
  rcases refreshLast_getElem now op k ts i with h | ⟨t', ht', hk', _⟩
  · rw [h, ht]
  · rw [ht] at ht'
    obtain rfl : t = t' := Option.some.inj ht'
    exact absurd hk' hne

theorem refreshLast_getElem_eq (now : Int) (op : Opportunity) (k : String) :
    ∀ (ts : List Task) (i : Nat) (t : Task),
      (ts.filterMap taskKey).Nodup → ts[i]? = some t → taskKey t = some k →
      (refreshLast now op k ts)[i]? = some (refreshTask now op t)
  | [], i, t, _, ht, _ => by simp at ht
  | t0 :: rest, i, t, hnd, ht, hk => by
    simp only [refreshLast]
    cases i with
    | zero =>
      obtain rfl : t0 = t := by simpa using ht
      have hnr : hasLink rest k = false := not_hasLink_rest hnd hk
      rw [if_neg (by simp [hnr]), if_pos (by simp [hk])]
      simp
    | succ n =>
      have htn : rest[n]? = some t := by simpa using ht
      have hA : hasLink rest k = true := hasLink_of_mem (mem_of_getElem_opt htn) hk
      rw [if_pos hA]
      have := refreshLast_getElem_eq now op k rest n t (nodup_filterMap_tail hnd) htn hk
      simpa using this

theorem foldl_pos_key_notin (env : Env) (cfg : Cfg) (now : Int) :
    ∀ (ops : List Opportunity) (st : MergeState) (i : Nat) (u : Task) (k : String),
      st.tasks[i]? = some u → taskKey u = some k →
      (∀ o' ∈ ops, o'.item.link ≠ k) →
      (ops.foldl (mergeStep env cfg now) st).tasks[i]? = some u
  | [], _, _, _, _, h, _, _ => h
  | o :: rest, st, i, u, k, h, hk, hne => by
    rw [List.foldl_cons]
    have hstep : (mergeStep env cfg now st o).tasks[i]? = some u := by
      unfold mergeStep
      by_cases hA : hasLink st.tasks o.item.link = true
      · rw [if_pos hA]
        exact refreshLast_getElem_ne now o o.item.link h (by
          rw [hk]
          intro hc
          exact hne o (List.mem_cons_self _ _) (Option.some.inj hc).symm)
      · rw [if_neg hA]
        by_cases hB : st.created ≥ (max 0 cfg.maxNewTickets).toNat
        · rw [if_pos hB]; exact h
        · rw [if_neg hB]
          have hi : i < st.tasks.length := (List.getElem?_eq_some_iff.1 h).1
          show (st.tasks ++ [newTask env now o (ticketRelPath env o)])[i]? = some u
          rw [List.getElem?_append_left hi]
          exact h
    exact foldl_pos_key_notin env cfg now rest _ i u k hstep hk
      fun o' ho' => hne o' (List.mem_cons_of_mem _ ho')

theorem foldl_refresh_at (env : Env) (cfg : Cfg) (now : Int) :
    ∀ (ops : List Opportunity) (st : MergeState) (op : Opportunity) (i : Nat) (t : Task),
      (st.tasks.filterMap taskKey).Nodup →
      ((ops.map fun o => o.item.link).Nodup) →
      op ∈ ops →
      st.tasks[i]? = some t →
      taskKey t = some op.item.link →
      (ops.foldl (mergeStep env cfg now) st).tasks[i]? = some (refreshTask now op t)
  | [], _, op, _, _, _, _, hmem, _, _ => absurd hmem (List.not_mem_nil op)
  | o :: rest, st, op, i, t, hndk, hndl, hmem, ht, hk => by
    rw [List.foldl_cons]
    have hndl' : (rest.map fun o => o.item.link).Nodup := by simpa using hndl.of_cons
    have hheadnot : o.item.link ∉ rest.map fun o => o.item.link :=
      (List.nodup_cons.1 (by simpa using hndl)).1
    rcases List.mem_cons.1 hmem with rfl | hmemr
    · have hA : hasLink st.tasks op.item.link = true :=
        hasLink_of_mem (mem_of_getElem_opt ht) hk
      rw [mergeStep_found hA]
      have hpos : (refreshLast now op op.item.link st.tasks)[i]? =
          some (refreshTask now op t) :=
        refreshLast_getElem_eq now op op.item.link st.tasks i t hndk ht hk
      exact foldl_pos_key_notin env cfg now rest _ i (refreshTask now op t)
        op.item.link hpos (by rw [taskKey_refreshTask]; exact hk)
        (fun o' ho' heq =>
          hheadnot (List.mem_map.2 ⟨o', ho', heq⟩))
    · have hneq : o.item.link ≠ op.item.link := by
        intro he
        exact hheadnot (List.mem_map.2 ⟨op, hmemr, he.symm⟩)
      by_cases hA : hasLink st.tasks o.item.link = true
      · rw [mergeStep_found hA]
        refine foldl_refresh_at env cfg now rest _ op i t ?_ hndl' hmemr ?_ hk
        · show ((refreshLast now o o.item.link st.tasks).filterMap taskKey).Nodup
          rw [filterMap_taskKey_refreshLast]
          exact hndk
        · exact refreshLast_getElem_ne now o o.item.link ht (by
            rw [hk]
            intro hc
            exact hneq (Option.some.inj hc).symm)
      · unfold mergeStep
        rw [if_neg hA]
        by_cases hB : st.created ≥ (max 0 cfg.maxNewTickets).toNat
        · rw [if_pos hB]
          exact foldl_refresh_at env cfg now rest st op i t hndk hndl' hmemr ht hk
        · rw [if_neg hB]
          have hi : i < st.tasks.length := (List.getElem?_eq_some_iff.1 ht).1
          refine foldl_refresh_at env cfg now rest _ op i t ?_ hndl' hmemr ?_ hk
          · show ((st.tasks ++ [newTask env now o (ticketRelPath env o)]).filterMap
              taskKey).Nodup
            rw [List.filterMap_append]
            rw [show ([newTask env now o (ticketRelPath env o)].filterMap taskKey) =
              [o.item.link] from rfl]
            rw [List.nodup_append]
            refine ⟨hndk, List.nodup_singleton _, ?_⟩
            rw [List.disjoint_singleton]
            intro hmem'
            exact hA (hasLink_iff.2 hmem')
          · show (st.tasks ++ [newTask env now o (ticketRelPath env o)])[i]? = some t
            rw [List.getElem?_append_left hi]
            exact ht

/-- C2: when a top opportunity's link matches an existing task (link keys
unique on the board, as `source.link` is the task identity key), the
written board holds, at that task's original position, exactly the task
with `score`, `matched_terms`, `action_plan`, `updated_at` refreshed from
the opportunity and every other field — in particular `status`,
`priority`, `ticket_path`, `owner` — unchanged. -/
theorem claim2_refresh (env : Env) (cfg : Cfg) (now : Int) (fetched : List FeedItem)
    (errs : List String) (fs : FS) (op : Opportunity) (i : Nat) (t : Task)
    (hnd : ((loadedBoard now fs).tasks.filterMap taskKey).Nodup)
    (hop : op ∈ topOf cfg now fetched)
    (ht : (loadedBoard now fs).tasks[i]? = some t)
    (hk : taskKey t = some op.item.link) :
    ∃ b', (runReconcile env cfg now fetched errs fs).1.boardJson = some (some b') ∧
      b'.tasks[i]? = some (refreshTask now op t) ∧
      ∀ u, b'.tasks[i]? = some u →
        u.score = op.score ∧ u.matched_terms = op.matched_terms ∧
        u.action_plan = build_action_plan op ∧ u.updated_at = now ∧
        u.status = t.status ∧ u.priority = t.priority ∧
        u.ticket_path = t.ticket_path ∧ u.owner = t.owner ∧
        u.id = t.id ∧ u.title = t.title ∧ u.workstream = t.workstream ∧
        u.source = t.source ∧ u.created_at = t.created_at ∧ u.tags = t.tags := by
  have hpos : (finalBoard env cfg now fetched fs).tasks[i]? =
      some (refreshTask now op t) :=
    foldl_refresh_at env cfg now (topOf cfg now fetched)
      ⟨(loadedBoard now fs).tasks, 0, [], fs.tickets⟩ op i t hnd
      (topOf_links_nodup cfg now fetched) hop ht hk
  refine ⟨finalBoard env cfg now fetched fs,
    runReconcile_boardJson env cfg now fetched errs fs, hpos, ?_⟩
  intro u hu
  rw [hpos] at hu
  obtain rfl : refreshTask now op t = u := Option.some.inj hu
  exact ⟨rfl, rfl, rfl, rfl, rfl, rfl, rfl, rfl, rfl, rfl, rfl, rfl, rfl, rfl⟩

/-- Witness for C2: the manually-edited task keeps `status="done"`,
`priority="P3"`, its ticket path and owner, while score/terms/plan/time
are refreshed. -/
theorem claim2_witness :
    ∃ b', (runReconcile exEnv exCfg 0 [exItemP] [] exFSManual).1.boardJson =
        some (some b') ∧
      b'.tasks[0]? = some (refreshTask 0 exOpP exManualTask) ∧
      ∀ u, b'.tasks[0]? = some u →
        u.score = exOpP.score ∧ u.matched_terms = exOpP.matched_terms ∧
        u.action_plan = build_action_plan exOpP ∧ u.updated_at = 0 ∧
        u.status = exManualTask.status ∧ u.priority = exManualTask.priority ∧
        u.ticket_path = exManualTask.ticket_path ∧ u.owner = exManualTask.owner ∧
        u.id = exManualTask.id ∧ u.title = exManualTask.title ∧
        u.workstream = exManualTask.workstream ∧ u.source = exManualTask.source ∧
        u.created_at = exManualTask.created_at ∧ u.tags = exManualTask.tags :=
  claim2_refresh exEnv exCfg 0 [exItemP] [] exFSManual exOpP 0 exManualTask
    (by decide) (by decide) (by decide) (by decide)

end MRS
